import Mathlib

/-!
Shallow embedding of the csgo-demo-visualizer match-record query layer
(src/models/data_manager.py, src/models/team_routines.py) together with the
repository modules it imports that are described by the design document
(models/routine.py, models/team_type.py, models/player.py,
models/round_stats.py, models/team.py).

The Python code raises exceptions; here every fallible operation returns
`Except Err`, with one `Err` constructor per distinct raise site.  Python
list indexing (including negative indices) is modelled by `pyGet`.
-/

namespace CsgoDemo

/-- Error kinds of the query layer.  Each constructor corresponds to one
distinct raise site in the source: the `ValueError`s of `DataManager`
(missing rounds, round index check, missing frames, frame index check,
missing player list), a raw Python `IndexError` from list subscription, a
Python `KeyError` from dict subscription, the `ValueError` that
`range(0, n, 0)` raises for a zero step, the `ValueError` of
`Team.from_routines_list` carrying the received count, and the failure of
the strict side-string parse. -/
inductive Err where
  | noRounds
  | roundOutOfBounds
  | noFrames
  | frameOutOfBounds
  | noPlayers
  | indexError
  | keyError
  | zeroStep
  | rosterSize (n : Nat)
  | invalidSide
  deriving Repr, DecidableEq, Inhabited

/-- Modelled from the spec: models/team_type.py is absent from src/.  Side is
the closed enum with members T and CT; `TeamType.T.value = "t"` and
`TeamType.CT.value = "ct"` are the keys used to subscript a frame. -/
inductive TeamType where
  | T
  | CT
  deriving Repr, DecidableEq, Inhabited

/-- Modelled from the spec: models/team_type.py is absent from src/.  The
side string of the raw record is parsed by a strict closed mapping; any
unrecognized value is a parse error, never a silent default. -/
def TeamType.from_str (s : String) : Except Err TeamType :=
  if s = "T" then .ok .T
  else if s = "CT" then .ok .CT
  else .error .invalidSide

/-- One player's snapshot inside a frame (awpy `PlayerInfo`), restricted to
the fields the query layer reads: the name (the cross-frame identity key),
the 2D position, hp, and the alive flag. -/
structure PlayerInfo where
  name : String
  x : Int
  y : Int
  hp : Int
  isAlive : Bool
  deriving Repr, DecidableEq, Inhabited

/-- Per-side state of one frame (awpy `TeamFrameInfo`): the possibly absent
player list, the alive-player count, and the team equipment value. -/
structure TeamFrameState where
  players : Option (List PlayerInfo)
  alivePlayers : Int
  teamEqVal : Int
  deriving Repr, DecidableEq, Inhabited

/-- One frame of a round (awpy `GameFrame`), restricted to the fields the
query layer reads. -/
structure GameFrame where
  clockTime : String
  t : TeamFrameState
  ct : TeamFrameState
  deriving Repr, DecidableEq, Inhabited

/-- Subscripting a frame with `team.value` selects that side's state. -/
def GameFrame.side (f : GameFrame) : TeamType → TeamFrameState
  | .T => f.t
  | .CT => f.ct

/-- One round (awpy `GameRound`), restricted to the fields the query layer
reads: winning side string, end reason, and the possibly absent frames. -/
structure GameRound where
  winningSide : String
  roundEndReason : String
  frames : Option (List GameFrame)
  deriving Repr, DecidableEq, Inhabited

/-- The validated match record (awpy `Game`), restricted to the fields the
query layer reads. -/
structure Game where
  mapName : String
  gameRounds : Option (List GameRound)
  deriving Repr, DecidableEq, Inhabited

/-- Python list subscription `l[i]`: a nonnegative index below the length
returns that element, a negative index `i` with `-len ≤ i` returns the
element at `len + i`, and anything else raises `IndexError`. -/
def pyGet (l : List α) (i : Int) : Except Err α :=
  if h : 0 ≤ i ∧ i.toNat < l.length then
    .ok (l.get ⟨i.toNat, h.2⟩)
  else if h2 : i < 0 ∧ 0 ≤ (l.length : Int) + i ∧ ((l.length : Int) + i).toNat < l.length then
    .ok (l.get ⟨((l.length : Int) + i).toNat, h2.2.2⟩)
  else .error .indexError

/-- `DataManager.__get_game_rounds`: the round list, or an error when the
record has no round data. -/
def get_game_rounds (g : Game) : Except Err (List GameRound) :=
  match g.gameRounds with
  | none => .error .noRounds
  | some rs => .ok rs

/-- `DataManager.get_game_round`: checks only `round_index >= len(rounds)`
before subscripting the list. -/
def get_game_round (g : Game) (round_index : Int) : Except Err GameRound := do
  let rounds ← get_game_rounds g
  if round_index ≥ (rounds.length : Int) then .error .roundOutOfBounds
  else pyGet rounds round_index

/-- `DataManager.__get_frames`: the frame list of a round, or an error when
the round has no frames. -/
def get_frames (g : Game) (round_id : Int) : Except Err (List GameFrame) := do
  let round_data ← get_game_round g round_id
  match round_data.frames with
  | none => .error .noFrames
  | some frames => .ok frames

/-- `DataManager.get_frame`: checks only `frame_id >= len(frames)` before
subscripting the list. -/
def get_frame (g : Game) (round_id : Int) (frame_id : Int) : Except Err GameFrame := do
  let frames ← get_frames g round_id
  if frame_id ≥ (frames.length : Int) then .error .frameOutOfBounds
  else pyGet frames frame_id

/-- `DataManager.get_map_name`. -/
def get_map_name (g : Game) : String := g.mapName

/-- `DataManager.__get_player_info_list`: the player list of one side of one
frame, or an error when that list is absent. -/
def get_player_info_list (g : Game) (round_index : Int) (frame_index : Int)
    (team : TeamType) : Except Err (List PlayerInfo) := do
  let frame ← get_frame g round_index frame_index
  match (frame.side team).players with
  | none => .error .noPlayers
  | some ps => .ok ps

/-- `DataManager.get_player_at_frame`: raw Python subscription of the side's
player list, with no bounds check of its own. -/
def get_player_at_frame (g : Game) (player_index : Int) (team : TeamType)
    (round_index : Int) (frame_index : Int) : Except Err PlayerInfo := do
  let players ← get_player_info_list g round_index frame_index team
  pyGet players player_index

/-- `DataManager.is_player_alive`: projection of the `isAlive` field through
`get_player_at_frame`. -/
def is_player_alive (g : Game) (player_index : Int) (team : TeamType)
    (round_index : Int) (frame_index : Int) : Except Err Bool := do
  let player ← get_player_at_frame g player_index team round_index frame_index
  return player.isAlive

/-- `DataManager.get_player_hp`: projection of the `hp` field through
`get_player_at_frame`. -/
def get_player_hp (g : Game) (player_index : Int) (team : TeamType)
    (round_index : Int) (frame_index : Int) : Except Err Int := do
  let player ← get_player_at_frame g player_index team round_index frame_index
  return player.hp

/-- Modelled from the spec: models/routine.py is absent from src/.  A
Routine is an ordered, growable sequence of 2D points, appended only, in
frame order. -/
structure Routine where
  points : List (Int × Int)
  deriving Repr, DecidableEq, Inhabited

/-- Modelled from the spec: `Routine.add_point` appends one (x, y) point. -/
def Routine.add_point (r : Routine) (x y : Int) : Routine :=
  ⟨r.points ++ [(x, y)]⟩

/-- Modelled from the spec: models/player.py is absent from src/.  A Player
is the per-player entry of a round-stats breakdown, derived from one
PlayerInfo. -/
structure Player where
  info : PlayerInfo
  deriving Repr, DecidableEq, Inhabited

/-- Modelled from the spec: `Player.from_player_info` derives the entry from
the raw PlayerInfo. -/
def Player.from_player_info (p : PlayerInfo) : Player := ⟨p⟩

/-- Modelled from the spec: models/round_stats.py is absent from src/.  The
aggregate returned by `get_round_stats`: the T-side per-player breakdown,
the round-level winning side and end reason, the CT-side frame-level alive
count and team equipment value, and the frame clock time. -/
structure RoundStats where
  players : List Player
  winning_side : TeamType
  round_end_reason : String
  opponents_alive : Int
  opponent_equipment_value : Int
  clock_time : String
  deriving Repr, DecidableEq, Inhabited

/-- `DataManager.get_round_stats`. -/
def get_round_stats (g : Game) (round_index : Int) (frame_index : Int) :
    Except Err RoundStats := do
  let round ← get_game_round g round_index
  let frame ← get_frame g round_index frame_index
  let winning_side ← TeamType.from_str round.winningSide
  let round_end_reason := round.roundEndReason
  let clock_time := frame.clockTime
  let opponents_alive := frame.ct.alivePlayers
  let opponent_equipment_value := frame.ct.teamEqVal
  let infos ← get_player_info_list g round_index frame_index .T
  let players := infos.map Player.from_player_info
  return ⟨players, winning_side, round_end_reason, opponents_alive,
    opponent_equipment_value, clock_time⟩

/-- `TeamRoutines` of src/models/team_routines.py: a tuple of exactly five
per-player routine lists. -/
structure TeamRoutines where
  p0 : List Routine
  p1 : List Routine
  p2 : List Routine
  p3 : List Routine
  p4 : List Routine
  deriving Repr, DecidableEq, Inhabited

/-- `TeamRoutines.from_routines_list`: rejects any list whose length is not
exactly 5, reporting the received count; otherwise packs entries 0-4. -/
def TeamRoutines.from_routines_list (routines : List (List Routine)) :
    Except Err TeamRoutines :=
  match routines with
  | [a, b, c, d, e] => .ok ⟨a, b, c, d, e⟩
  | l => .error (.rosterSize l.length)

/-- `TeamRoutines.get_player_routines`: rejects indices outside 0-4. -/
def TeamRoutines.get_player_routines (t : TeamRoutines) (player_index : Int) :
    Except Err (List Routine) :=
  if player_index < 0 ∨ player_index ≥ 5 then .error .roundOutOfBounds
  else if player_index = 0 then .ok t.p0
  else if player_index = 1 then .ok t.p1
  else if player_index = 2 then .ok t.p2
  else if player_index = 3 then .ok t.p3
  else .ok t.p4

/-- Modelled from the spec: models/team.py is absent from src/.  The
per-side container that `get_all_team_routines` builds has fixed arity 5
and is validated exactly like the Team Routines Model of the design
document. -/
structure Team where
  p0 : List Routine
  p1 : List Routine
  p2 : List Routine
  p3 : List Routine
  p4 : List Routine
  deriving Repr, DecidableEq, Inhabited

/-- Modelled from the spec: `Team.from_routines_list` rejects any list whose
length is not exactly 5, reporting the received count. -/
def Team.from_routines_list (routines : List (List Routine)) :
    Except Err Team :=
  match routines with
  | [a, b, c, d, e] => .ok ⟨a, b, c, d, e⟩
  | l => .error (.rosterSize l.length)

/-- `DataManager.__get_players_from_team_from_frame`: the player list of one
side directly from a frame object, or an error when absent. -/
def framePlayers (f : GameFrame) (team : TeamType) : Except Err (List PlayerInfo) :=
  match (f.side team).players with
  | none => .error .noPlayers
  | some ps => .ok ps

/-- The key set of the frozenset of player names: duplicates removed, first
occurrence kept.  Only the key SET is modelled; the iteration order of a
CPython frozenset is hash-based and is not modelled here. -/
def dedupFirst : List String → List String
  | [] => []
  | x :: xs => x :: (dedupFirst xs).filter (fun y => y ≠ x)

/-- The name-keyed routine dictionary (`t_side_routines` / `ct_side_routines`
in the source), as an association list. -/
abbrev Store := List (String × List Routine)

/-- Dictionary lookup on a store. -/
def Store.find : Store → String → Option (List Routine)
  | [], _ => none
  | (m, rs) :: t, n => if m = n then some rs else Store.find t n

/-- The dict comprehension building the routine dictionary: every roster
name mapped to an empty routine list. -/
def initStore (roster : List String) : Store :=
  roster.map (fun n => (n, ([] : List Routine)))

/-- The per-chunk step `routines[player_name].append(Routine())` for every
roster name: a fresh empty Routine appended to every entry. -/
def pushRoutine (s : Store) : Store :=
  s.map (fun e => (e.1, e.2 ++ [(⟨[]⟩ : Routine)]))

/-- The statement `lst[-1].add_point(x, y)`: the last Routine of a list gets
one point appended; `none` models the `IndexError` of `[-1]` on an empty
list. -/
def addLast (x y : Int) : List Routine → Option (List Routine)
  | [] => none
  | [r] => some [r.add_point x y]
  | r :: s :: t => (addLast x y (s :: t)).map (fun u => r :: u)

/-- The statement `routines[name][-1].add_point(x, y)`: dict subscription
(raising `KeyError` for an unknown name) followed by `addLast` on the found
list. -/
def Store.addPoint : Store → String → Int → Int → Except Err Store
  | [], _, _, _ => .error .keyError
  | (m, rs) :: t, n, x, y =>
    if m = n then
      match addLast x y rs with
      | some rs2 => .ok ((m, rs2) :: t)
      | none => .error .indexError
    else
      match Store.addPoint t n x y with
      | .ok t2 => .ok ((m, rs) :: t2)
      | .error e => .error e

/-- The inner loop over one side's players of one frame: each player's
(x, y) appended to the last Routine of that player's dictionary entry. -/
def processSide (ps : List PlayerInfo) (s : Store) : Except Err Store :=
  ps.foldlM (fun st p => st.addPoint p.name p.x p.y) s

/-- The per-frame body of `get_all_team_routines`: append the T-side points,
then the CT-side points, each side's list fetched from the frame first. -/
def processFrame (p : Store × Store) (f : GameFrame) : Except Err (Store × Store) := do
  let tps ← framePlayers f .T
  let ts ← processSide tps p.1
  let cps ← framePlayers f .CT
  let cs ← processSide cps p.2
  return (ts, cs)

/-- The per-chunk body of `get_all_team_routines`: one fresh Routine per
roster name on each side, then every frame of the chunk processed in order. -/
def processChunk (p : Store × Store) (chunk : List GameFrame) :
    Except Err (Store × Store) :=
  chunk.foldlM processFrame (pushRoutine p.1, pushRoutine p.2)

/-- Structural worker for `chunkList`: the fuel bounds the recursion depth
and is irrelevant once it is at least the list's length. -/
def chunkFuel (n : Nat) : Nat → List α → List (List α)
  | _, [] => []
  | 0, _ :: _ => []
  | fuel + 1, x :: xs => (x :: xs.take n) :: chunkFuel n fuel (xs.drop n)

/-- Consecutive chunks of size `n + 1`, the final chunk possibly shorter:
the list of slices produced by `frames[index:index + chunk_size]` for
`index in range(0, frame_count, chunk_size)` with `chunk_size = n + 1`. -/
def chunkList (n : Nat) (l : List α) : List (List α) :=
  chunkFuel n l.length l

/-- The generator `batch_frames`: `range(0, frame_count, chunk_size)` raises
a `ValueError` for a zero step, yields nothing for a negative step (the
range is empty), and otherwise slices the frames into consecutive chunks of
size `chunk_size` with the final chunk possibly shorter. -/
def batch_frames (frames : List GameFrame) (chunk_size : Int) :
    Except Err (List (List GameFrame)) :=
  if chunk_size = 0 then .error .zeroStep
  else if chunk_size < 0 then .ok []
  else .ok (chunkList (chunk_size.toNat - 1) frames)

/-- The roster of one side: the frozenset of names of the side's frame-0
player list (key set only; see `dedupFirst`). -/
def roster (g : Game) (round_index : Int) (team : TeamType) :
    Except Err (List String) := do
  let infos ← get_player_info_list g round_index 0 team
  return dedupFirst (infos.map (fun p => p.name))

/-- The whole accumulation phase of `get_all_team_routines`: fetch the
frames, both frame-0 rosters, the chunks, then fold every chunk into the
two name-keyed routine stores. -/
def buildStores (g : Game) (round_index : Int) (routine_length : Int) :
    Except Err (Store × Store) := do
  let frames ← get_frames g round_index
  let tro ← roster g round_index .T
  let cro ← roster g round_index .CT
  let chunks ← batch_frames frames routine_length
  chunks.foldlM processChunk (initStore tro, initStore cro)

/-- `DataManager.get_all_team_routines`: accumulate the two stores, then
pack each side's dict values into a fixed-arity Team. -/
def get_all_team_routines (g : Game) (round_index : Int) (routine_length : Int) :
    Except Err (Team × Team) := do
  let sc ← buildStores g round_index routine_length
  let t_side ← Team.from_routines_list (sc.1.map (fun e => e.2))
  let ct_side ← Team.from_routines_list (sc.2.map (fun e => e.2))
  return (t_side, ct_side)

/-- Total number of points across a list of Routines. -/
def totalPoints (rs : List Routine) : Nat :=
  (rs.map (fun r => r.points.length)).sum

/-- The points contributed by one name in one side's list of one frame's
players: the positions of the occurrences of that name, in list order. -/
def sidePoints (ps : List PlayerInfo) (n : String) : List (Int × Int) :=
  (ps.filter (fun p => p.name = n)).map (fun p => (p.x, p.y))

/-- The points contributed by one name in one side of one frame (an absent
player list contributes nothing; `get_all_team_routines` fails on such a
frame anyway). -/
def framePts (f : GameFrame) (team : TeamType) (n : String) : List (Int × Int) :=
  match (f.side team).players with
  | none => []
  | some ps => sidePoints ps n

/-- The points contributed by one name across the frames of one chunk. -/
def chunkPts (frames : List GameFrame) (team : TeamType) (n : String) :
    List (Int × Int) :=
  (frames.map (fun f => framePts f team n)).flatten

/-- Number of occurrences of a name in one side's player list of one frame. -/
def occurrencesInFrame (f : GameFrame) (team : TeamType) (n : String) : Nat :=
  match (f.side team).players with
  | none => 0
  | some ps => (ps.filter (fun p => p.name = n)).length

/-- Whether a player with the given name appears in one side's player list
of one frame. -/
def appearsInFrame (f : GameFrame) (team : TeamType) (n : String) : Bool :=
  match (f.side team).players with
  | none => false
  | some ps => ps.any (fun p => p.name = n)

/-- A live player fixture at a given position. -/
def mkP (n : String) (x y : Int) : PlayerInfo :=
  ⟨n, x, y, 100, true⟩

/-- T-side fixture roster at positions derived from a base coordinate. -/
def mkT (k : Int) : List PlayerInfo :=
  [mkP "a" k k, mkP "b" k (k + 1), mkP "c" k (k + 2),
   mkP "d" k (k + 3), mkP "e" k (k + 4)]

/-- CT-side fixture roster at positions derived from a base coordinate. -/
def mkCT (k : Int) : List PlayerInfo :=
  [mkP "p" k k, mkP "q" k (k + 1), mkP "r" k (k + 2),
   mkP "s" k (k + 3), mkP "u" k (k + 4)]

/-- A well-formed 5v5 frame fixture; the CT side carries the alive count 3
and equipment value 4000 of the round-stats scenario. -/
def fW (k : Int) : GameFrame :=
  ⟨"1:55", ⟨some (mkT k), 5, 1000⟩, ⟨some (mkCT k), 3, 4000⟩⟩

/-- Three well-formed frames. -/
def framesW : List GameFrame := [fW 0, fW 1, fW 2]

/-- A well-formed round, won by CT through a bomb defusal. -/
def roundW : GameRound := ⟨"CT", "BombDefused", some framesW⟩

/-- A well-formed one-round 5v5 game fixture. -/
def gW : Game := ⟨"de_dust2", some [roundW]⟩

/-- The stores accumulated on `gW` with window length 2. -/
def scW : Store × Store := (buildStores gW 0 2).toOption.getD ([], [])

/-- The chunks of `framesW` with window length 2. -/
def chunksW : List (List GameFrame) := (batch_frames framesW 2).toOption.getD []

/-- The teams extracted from `gW` with window length 2. -/
def tcW : Team × Team :=
  (get_all_team_routines gW 0 2).toOption.getD (default, default)

/-- A round fixture with two frames. -/
def roundA : GameRound := ⟨"T", "reasonA", some [fW 0, fW 1]⟩

/-- A round fixture with no frame data at all. -/
def roundB : GameRound := ⟨"CT", "reasonB", none⟩

/-- A two-round game fixture whose second round has no frames. -/
def gTwo : Game := ⟨"de_dust2", some [roundA, roundB]⟩

/-- A frame whose T-side list names "a" twice. -/
def fDup : GameFrame :=
  ⟨"1:55",
   ⟨some [mkP "a" 0 0, mkP "a" 5 5, mkP "b" 0 1, mkP "c" 0 2,
          mkP "d" 0 3, mkP "e" 0 4], 5, 1000⟩,
   ⟨some (mkCT 0), 5, 4000⟩⟩

/-- The one-frame sequence containing `fDup`. -/
def framesDup : List GameFrame := [fDup]

/-- A game whose only round's only frame lists "a" twice on the T side. -/
def gDup : Game := ⟨"de_dust2", some [⟨"CT", "CTWin", some framesDup⟩]⟩

/-- The stores accumulated on `gDup` with window length 1. -/
def scDup : Store × Store := (buildStores gDup 0 1).toOption.getD ([], [])

/-- The teams extracted from `gDup` with window length 1. -/
def tcDup : Team × Team :=
  (get_all_team_routines gDup 0 1).toOption.getD (default, default)

/-- A frame whose T-side list contains the name "z", unknown to the frame-0
roster of `gUnk`. -/
def fUnk : GameFrame :=
  ⟨"1:50", ⟨some (mkP "z" 9 9 :: mkT 1), 5, 1000⟩, ⟨some (mkCT 1), 5, 4000⟩⟩

/-- A game whose second frame brings in the unknown T-side name "z". -/
def gUnk : Game := ⟨"de_dust2", some [⟨"CT", "CTWin", some [fW 0, fUnk]⟩]⟩

/-- A frame whose T-side list omits the roster player "e". -/
def fSkip : GameFrame :=
  ⟨"1:50",
   ⟨some [mkP "a" 1 1, mkP "b" 1 2, mkP "c" 1 3, mkP "d" 1 4], 5, 1000⟩,
   ⟨some (mkCT 1), 5, 4000⟩⟩

/-- A game whose second frame omits the T-side roster player "e". -/
def gSkip : Game := ⟨"de_dust2", some [⟨"CT", "CTWin", some [fW 0, fSkip]⟩]⟩

/-- The stores accumulated on `gSkip` with window length 1. -/
def scSkip : Store × Store := (buildStores gSkip 0 1).toOption.getD ([], [])

/-- The teams extracted from `gSkip` with window length 1. -/
def tcSkip : Team × Team :=
  (get_all_team_routines gSkip 0 1).toOption.getD (default, default)

/-! Helper lemmas. -/

/-- Bind on a successful Except computes the continuation. -/
theorem exbind_ok {α β : Type} (a : α) (f : α → Except Err β) :
    ((Except.ok a : Except Err α) >>= f) = f a := rfl

/-- Bind on a failed Except propagates the error. -/
theorem exbind_error {α β : Type} (e : Err) (f : α → Except Err β) :
    ((Except.error e : Except Err α) >>= f) = .error e := rfl

/-- Python subscription with an in-range nonnegative index returns that
element. -/
theorem pyGet_nonneg {α : Type} [Inhabited α] {l : List α} {i : Int}
    (h0 : 0 ≤ i) (h : i < (l.length : Int)) :
    pyGet l i = .ok (l.getD i.toNat default) := by
  have hlt : i.toNat < l.length := by omega
  unfold pyGet
  rw [dif_pos ⟨h0, hlt⟩, List.getD_eq_getElem?_getD, List.getElem?_eq_getElem hlt]
  simp [List.get_eq_getElem]

/-- Python subscription with a negative index at least minus the length
returns the element at length plus the index. -/
theorem pyGet_neg {α : Type} [Inhabited α] {l : List α} {i : Int}
    (hneg : i < 0) (h : 0 ≤ (l.length : Int) + i) :
    pyGet l i = .ok (l.getD ((l.length : Int) + i).toNat default) := by
  have hlt : ((l.length : Int) + i).toNat < l.length := by omega
  unfold pyGet
  rw [dif_neg (by omega), dif_pos ⟨hneg, h, hlt⟩,
    List.getD_eq_getElem?_getD, List.getElem?_eq_getElem hlt]
  simp [List.get_eq_getElem]

/-- Python subscription with a negative index below minus the length raises
an IndexError. -/
theorem pyGet_neg_oob {α : Type} {l : List α} {i : Int}
    (h : (l.length : Int) + i < 0) :
    pyGet l i = .error .indexError := by
  unfold pyGet
  rw [dif_neg (by omega), dif_neg (by omega)]

/-- Python subscription with an index at least the length raises an
IndexError. -/
theorem pyGet_ge_oob {α : Type} {l : List α} {i : Int}
    (h : (l.length : Int) ≤ i) :
    pyGet l i = .error .indexError := by
  have h0 : 0 ≤ i := by omega
  unfold pyGet
  rw [dif_neg (by omega), dif_neg (by omega)]

/-- With a window length of at least 1, batching succeeds and produces the
chunk list. -/
theorem batch_frames_pos {L : Int} (hL : 1 ≤ L) (frames : List GameFrame) :
    batch_frames frames L = .ok (chunkList (L.toNat - 1) frames) := by
  unfold batch_frames
  rw [if_neg (by omega), if_neg (by omega)]

/-- The fuel of `chunkFuel` is irrelevant once it is at least the list's
length. -/
theorem chunkFuel_eq {α : Type} (n : Nat) (fuel : Nat) :
    ∀ l : List α, l.length ≤ fuel → chunkFuel n fuel l = chunkList n l := by
  induction fuel using Nat.strong_induction_on with
  | _ fuel ih =>
    intro l hl
    cases l with
    | nil => cases fuel <;> rfl
    | cons x xs =>
      cases fuel with
      | zero => simp at hl
      | succ f =>
        simp only [List.length_cons] at hl
        show (x :: xs.take n) :: chunkFuel n f (xs.drop n)
            = chunkList n (x :: xs)
        have hr : chunkList n (x :: xs)
            = (x :: xs.take n) :: chunkFuel n xs.length (xs.drop n) := rfl
        rw [hr]
        congr 1
        rw [ih f (Nat.lt_succ_self f) _ (by rw [List.length_drop]; omega),
            ih xs.length (by omega) _ (by rw [List.length_drop]; omega)]

/-- Chunking the empty list gives no chunks. -/
theorem chunkList_nil {α : Type} (n : Nat) : chunkList n ([] : List α) = [] := rfl

/-- Unfolding equation of `chunkList` on a nonempty list. -/
theorem chunkList_cons {α : Type} (n : Nat) (x : α) (xs : List α) :
    chunkList n (x :: xs) = (x :: xs.take n) :: chunkList n (xs.drop n) := by
  show (x :: xs.take n) :: chunkFuel n xs.length (xs.drop n)
      = (x :: xs.take n) :: chunkList n (xs.drop n)
  congr 1
  exact chunkFuel_eq n xs.length _ (by rw [List.length_drop]; omega)

/-- The chunks flatten back to the original list. -/
theorem chunkList_flatten {α : Type} (n : Nat) :
    ∀ l : List α, (chunkList n l).flatten = l
  | [] => by simp [chunkList_nil]
  | x :: xs => by
    rw [chunkList_cons]
    simp [chunkList_flatten n (xs.drop n)]
termination_by l => l.length
decreasing_by simp only [List.length_drop, List.length_cons]; omega

/-- The number of chunks is the length rounded up to the chunk size. -/
theorem chunkList_length {α : Type} (n : Nat) :
    ∀ l : List α, (chunkList n l).length = (l.length + n) / (n + 1)
  | [] => by
    simp only [chunkList_nil, List.length_nil, Nat.zero_add]
    exact (Nat.div_eq_of_lt (Nat.lt_succ_self n)).symm
  | x :: xs => by
    rw [chunkList_cons]
    have ih := chunkList_length n (xs.drop n)
    rw [List.length_drop] at ih
    have heq : (xs.length - n + n) / (n + 1) = xs.length / (n + 1) := by
      by_cases hc : n ≤ xs.length
      · have : xs.length - n + n = xs.length := by omega
        rw [this]
      · have h1 : xs.length - n + n = n := by omega
        rw [h1, Nat.div_eq_of_lt (by omega), Nat.div_eq_of_lt (by omega)]
    have h2 : (x :: xs).length + n = xs.length + (n + 1) := by
      simp only [List.length_cons]; omega
    rw [List.length_cons, ih, heq, h2, Nat.add_div_right _ (Nat.succ_pos n)]
termination_by l => l.length
decreasing_by simp only [List.length_drop, List.length_cons]; omega

/-- Every chunk is nonempty and no longer than the chunk size. -/
theorem chunkList_mem_length {α : Type} (n : Nat) :
    ∀ l : List α, ∀ c ∈ chunkList n l, 1 ≤ c.length ∧ c.length ≤ n + 1
  | [] => by simp [chunkList_nil]
  | x :: xs => by
    intro c hc
    rw [chunkList_cons] at hc
    rcases List.mem_cons.mp hc with h | h
    · subst h
      simp only [List.length_cons, List.length_take]
      omega
    · exact chunkList_mem_length n (xs.drop n) c h
termination_by l => l.length
decreasing_by simp only [List.length_drop, List.length_cons]; omega

/-- Chunking the empty list gives no chunks, and chunking a nonempty list
gives at least one chunk. -/
theorem chunkList_eq_nil_iff {α : Type} (n : Nat) (l : List α) :
    chunkList n l = [] ↔ l = [] := by
  cases l with
  | nil => simp [chunkList_nil]
  | cons x xs => rw [chunkList_cons]; simp

/-- Every chunk except possibly the last has exactly the chunk size. -/
theorem chunkList_dropLast_length {α : Type} (n : Nat) :
    ∀ l : List α, ∀ c ∈ (chunkList n l).dropLast, c.length = n + 1
  | [] => by simp [chunkList_nil]
  | x :: xs => by
    intro c hc
    rw [chunkList_cons] at hc
    cases hrec : chunkList n (xs.drop n) with
    | nil => rw [hrec] at hc; simp at hc
    | cons c1 cs =>
      rw [hrec, List.dropLast_cons₂] at hc
      rcases List.mem_cons.mp hc with h | h
      · subst h
        have hne : xs.drop n ≠ [] := by
          intro hnil
          rw [(chunkList_eq_nil_iff n (xs.drop n)).mpr hnil] at hrec
          exact List.cons_ne_nil c1 cs hrec.symm
        have hlen : n < xs.length := by
          by_contra hle
          exact hne (List.drop_eq_nil_of_le (by omega))
        simp only [List.length_cons, List.length_take]
        omega
      · rw [← hrec] at h
        exact chunkList_dropLast_length n (xs.drop n) c h
termination_by l => l.length
decreasing_by all_goals simp only [List.length_drop, List.length_cons]; omega

/-- Pure on Except is the ok constructor. -/
theorem expure_ok {α : Type} (a : α) : (pure a : Except Err α) = .ok a := rfl

/-- Every roster name is bound to the empty list in the initial store. -/
theorem initStore_find {ros : List String} {n : String} (hn : n ∈ ros) :
    (initStore ros).find n = some [] := by
  induction ros with
  | nil => cases hn
  | cons r t ih =>
    simp only [initStore, List.map_cons, Store.find]
    by_cases h : r = n
    · simp [h]
    · rw [if_neg h]
      have hnt : n ∈ t := by
        rcases List.mem_cons.mp hn with h1 | h1
        · exact absurd h1.symm h
        · exact h1
      exact ih hnt

/-- Appending a fresh Routine to every entry appends one to every lookup. -/
theorem pushRoutine_find (s : Store) (n : String) :
    (pushRoutine s).find n
      = (s.find n).map (fun rs => rs ++ [(⟨[]⟩ : Routine)]) := by
  induction s with
  | nil => simp [pushRoutine, Store.find]
  | cons e t ih =>
    simp only [pushRoutine, List.map_cons, Store.find]
    by_cases h : e.1 = n
    · simp [h]
    · rw [if_neg h, if_neg h]
      exact ih

/-- Appending a point to the last Routine of a nonempty list updates
exactly the last entry. -/
theorem addLast_append (x y : Int) (init : List Routine) (r : Routine) :
    addLast x y (init ++ [r]) = some (init ++ [r.add_point x y]) := by
  induction init with
  | nil => simp [addLast]
  | cons a t ih =>
    cases t with
    | nil => simp_all [addLast]
    | cons b u => simp_all [addLast]

/-- A successful `addPoint` found the name, extended the last Routine of
its entry, and left every other name's entry unchanged. -/
theorem addPoint_ok_find {s s2 : Store} {m : String} {x y : Int}
    (h : Store.addPoint s m x y = .ok s2) :
    ∃ rs rs2, s.find m = some rs ∧ addLast x y rs = some rs2 ∧
      ∀ n, s2.find n = if n = m then some rs2 else s.find n := by
  induction s generalizing s2 with
  | nil => exact absurd h (by simp [Store.addPoint])
  | cons e t ih =>
    obtain ⟨k, rs0⟩ := e
    rw [Store.addPoint] at h
    by_cases hk : k = m
    · rw [if_pos hk] at h
      cases hal : addLast x y rs0 with
      | none => rw [hal] at h; cases h
      | some rs2 =>
        rw [hal] at h
        obtain rfl : (k, rs2) :: t = s2 := by cases h; rfl
        refine ⟨rs0, rs2, by simp [Store.find, hk], hal, ?_⟩
        intro n
        by_cases hn : n = m
        · have hkn : k = n := by rw [hk, hn]
          simp [Store.find, hkn, hn]
        · have hkn : ¬ (k = n) := fun hh => hn (hh.symm.trans hk)
          simp [Store.find, hkn, hn]
    · rw [if_neg hk] at h
      cases ht : Store.addPoint t m x y with
      | error e2 => rw [ht] at h; cases h
      | ok t2 =>
        rw [ht] at h
        obtain rfl : (k, rs0) :: t2 = s2 := by cases h; rfl
        obtain ⟨rs, rs2, hfind, hal, hall⟩ := ih ht
        refine ⟨rs, rs2, by simp [Store.find, hk, hfind], hal, ?_⟩
        intro n
        by_cases hkn : k = n
        · have hnm : ¬ (n = m) := fun hh => hk (hkn.trans hh)
          simp [Store.find, hkn, hnm]
        · have h2 := hall n
          by_cases hn : n = m
          · simp only [Store.find, if_neg hkn, h2, if_pos hn]
          · simp only [Store.find, if_neg hkn, h2, if_neg hn]

/-- A successful pass over one side's players of one frame appends exactly
that side's occurrences of each name to the last Routine of that name's
entry. -/
theorem processSide_ok_find {ps : List PlayerInfo} {s s2 : Store}
    (h : processSide ps s = .ok s2) {n : String} {init : List Routine}
    {r : Routine} (hf : s.find n = some (init ++ [r])) :
    s2.find n = some (init ++ [Routine.mk (r.points ++ sidePoints ps n)]) := by
  induction ps generalizing s r with
  | nil =>
    rw [processSide, List.foldlM_nil] at h
    obtain rfl : s = s2 := Except.ok.inj h
    simpa [sidePoints] using hf
  | cons p rest ih =>
    rw [processSide, List.foldlM_cons] at h
    cases ha : Store.addPoint s p.name p.x p.y with
    | error e => rw [ha, exbind_error] at h; cases h
    | ok st =>
      rw [ha, exbind_ok] at h
      have h2 : processSide rest st = .ok s2 := h
      obtain ⟨rs, rs2, hfm, hal, hall⟩ := addPoint_ok_find ha
      by_cases hn : n = p.name
      · subst hn
        obtain rfl : init ++ [r] = rs := Option.some.inj (hf.symm.trans hfm)
        rw [addLast_append] at hal
        obtain rfl : init ++ [r.add_point p.x p.y] = rs2 := Option.some.inj hal
        have hst : st.find p.name = some (init ++ [r.add_point p.x p.y]) := by
          rw [hall p.name, if_pos rfl]
        have hrec := ih h2 hst
        rw [hrec]
        simp [Routine.add_point, sidePoints, List.filter_cons, List.append_assoc]
      · have hst : st.find n = some (init ++ [r]) := by
          rw [hall n, if_neg hn, hf]
        have hrec := ih h2 hst
        rw [hrec]
        have hne : ¬ (p.name = n) := fun hh => hn hh.symm
        simp [sidePoints, List.filter_cons, hne]

/-- A successful pass over one frame appends that frame's T-side points to
the last Routine of every T-store entry and its CT-side points to the last
Routine of every CT-store entry. -/
theorem processFrame_ok_find {p q : Store × Store} {f : GameFrame}
    (h : processFrame p f = .ok q) :
    (∀ n init r, p.1.find n = some (init ++ [r]) →
        q.1.find n = some (init ++ [Routine.mk (r.points ++ framePts f .T n)]))
    ∧ (∀ n init r, p.2.find n = some (init ++ [r]) →
        q.2.find n = some (init ++ [Routine.mk (r.points ++ framePts f .CT n)])) := by
  rw [processFrame] at h
  cases h1 : framePlayers f .T with
  | error e => rw [h1, exbind_error] at h; cases h
  | ok tps =>
    rw [h1, exbind_ok] at h
    cases h2 : processSide tps p.1 with
    | error e => rw [h2, exbind_error] at h; cases h
    | ok ts =>
      rw [h2, exbind_ok] at h
      cases h3 : framePlayers f .CT with
      | error e => rw [h3, exbind_error] at h; cases h
      | ok cps =>
        rw [h3, exbind_ok] at h
        cases h4 : processSide cps p.2 with
        | error e => rw [h4, exbind_error] at h; cases h
        | ok cs =>
          rw [h4, exbind_ok] at h
          obtain rfl : (ts, cs) = q := Except.ok.inj h
          constructor
          · intro n init r hf
            have hfp : framePts f .T n = sidePoints tps n := by
              unfold framePlayers at h1
              cases hpl : (f.side .T).players with
              | none => rw [hpl] at h1; cases h1
              | some ps =>
                rw [hpl] at h1
                obtain rfl : ps = tps := Except.ok.inj h1
                rw [framePts, hpl]
            rw [hfp]
            exact processSide_ok_find h2 hf
          · intro n init r hf
            have hfp : framePts f .CT n = sidePoints cps n := by
              unfold framePlayers at h3
              cases hpl : (f.side .CT).players with
              | none => rw [hpl] at h3; cases h3
              | some ps =>
                rw [hpl] at h3
                obtain rfl : ps = cps := Except.ok.inj h3
                rw [framePts, hpl]
            rw [hfp]
            exact processSide_ok_find h4 hf

/-- A successful pass over a chunk's frames appends that chunk's points per
name to the last Routine of the matching entry, on both sides. -/
theorem foldFrames_ok_find {frames : List GameFrame} {p q : Store × Store}
    (h : frames.foldlM processFrame p = .ok q) :
    (∀ n init r, p.1.find n = some (init ++ [r]) →
        q.1.find n = some (init ++ [Routine.mk (r.points ++ chunkPts frames .T n)]))
    ∧ (∀ n init r, p.2.find n = some (init ++ [r]) →
        q.2.find n = some (init ++ [Routine.mk (r.points ++ chunkPts frames .CT n)])) := by
  induction frames generalizing p with
  | nil =>
    rw [List.foldlM_nil] at h
    obtain rfl : p = q := Except.ok.inj h
    constructor <;> intro n init r hf <;> simpa [chunkPts] using hf
  | cons f rest ih =>
    rw [List.foldlM_cons] at h
    cases h1 : processFrame p f with
    | error e => rw [h1, exbind_error] at h; cases h
    | ok mid =>
      rw [h1, exbind_ok] at h
      obtain ⟨ihT, ihC⟩ := ih h
      obtain ⟨pfT, pfC⟩ := processFrame_ok_find h1
      constructor
      · intro n init r hf
        have hrec := ihT n init (Routine.mk (r.points ++ framePts f .T n)) (pfT n init r hf)
        rw [hrec]
        simp [chunkPts, List.append_assoc]
      · intro n init r hf
        have hrec := ihC n init (Routine.mk (r.points ++ framePts f .CT n)) (pfC n init r hf)
        rw [hrec]
        simp [chunkPts, List.append_assoc]

/-- A successful pass over one chunk appends exactly one Routine, holding
that chunk's points, to every entry of both stores. -/
theorem processChunk_ok_find {p q : Store × Store} {chunk : List GameFrame}
    (h : processChunk p chunk = .ok q) :
    (∀ n rs, p.1.find n = some rs →
        q.1.find n = some (rs ++ [Routine.mk (chunkPts chunk .T n)]))
    ∧ (∀ n rs, p.2.find n = some rs →
        q.2.find n = some (rs ++ [Routine.mk (chunkPts chunk .CT n)])) := by
  rw [processChunk] at h
  obtain ⟨fT, fC⟩ := foldFrames_ok_find h
  constructor
  · intro n rs hf
    have hpush : (pushRoutine p.1).find n = some (rs ++ [(⟨[]⟩ : Routine)]) := by
      rw [pushRoutine_find, hf]
      rfl
    simpa using fT n rs ⟨[]⟩ hpush
  · intro n rs hf
    have hpush : (pushRoutine p.2).find n = some (rs ++ [(⟨[]⟩ : Routine)]) := by
      rw [pushRoutine_find, hf]
      rfl
    simpa using fC n rs ⟨[]⟩ hpush

/-- A successful pass over all chunks appends one Routine per chunk, in
chunk order, to every entry of both stores. -/
theorem foldChunks_ok_find {chunks : List (List GameFrame)} {p q : Store × Store}
    (h : chunks.foldlM processChunk p = .ok q) :
    (∀ n rs, p.1.find n = some rs →
        q.1.find n = some (rs ++ chunks.map (fun c => Routine.mk (chunkPts c .T n))))
    ∧ (∀ n rs, p.2.find n = some rs →
        q.2.find n = some (rs ++ chunks.map (fun c => Routine.mk (chunkPts c .CT n)))) := by
  induction chunks generalizing p with
  | nil =>
    rw [List.foldlM_nil] at h
    obtain rfl : p = q := Except.ok.inj h
    constructor <;> intro n rs hf <;> simpa using hf
  | cons c rest ih =>
    rw [List.foldlM_cons] at h
    cases h1 : processChunk p c with
    | error e => rw [h1, exbind_error] at h; cases h
    | ok mid =>
      rw [h1, exbind_ok] at h
      obtain ⟨ihT, ihC⟩ := ih h
      obtain ⟨pT, pC⟩ := processChunk_ok_find h1
      constructor
      · intro n rs hf
        have hrec := ihT n _ (pT n rs hf)
        rw [hrec]
        simp
      · intro n rs hf
        have hrec := ihC n _ (pC n rs hf)
        rw [hrec]
        simp

/-- When the accumulation phase succeeds, every roster name's entry is one
Routine per chunk, in chunk order, holding exactly that chunk's points for
that name. -/
theorem buildStores_find {g : Game} {ri L : Int} {sc : Store × Store}
    {frames : List GameFrame} {tro cro : List String}
    {chunks : List (List GameFrame)}
    (hb : buildStores g ri L = .ok sc)
    (hfr : get_frames g ri = .ok frames)
    (htr : roster g ri .T = .ok tro)
    (hcr : roster g ri .CT = .ok cro)
    (hch : batch_frames frames L = .ok chunks) :
    (∀ n ∈ tro,
      sc.1.find n = some (chunks.map (fun c => Routine.mk (chunkPts c .T n))))
    ∧ (∀ n ∈ cro,
      sc.2.find n = some (chunks.map (fun c => Routine.mk (chunkPts c .CT n)))) := by
  rw [buildStores] at hb
  simp only [hfr, htr, hcr, hch, exbind_ok] at hb
  obtain ⟨fT, fC⟩ := foldChunks_ok_find hb
  constructor
  · intro n hn
    simpa using fT n [] (initStore_find hn)
  · intro n hn
    simpa using fC n [] (initStore_find hn)

/-! Claim theorems. -/

/-- C7: `TeamRoutines.from_routines_list` fails with a roster-size error
carrying the actual count whenever the input list's length is not exactly
5, and succeeds for every list of length exactly 5 regardless of the
lists' contents. -/
theorem C7_from_routines_list_arity (routines : List (List Routine)) :
    (routines.length ≠ 5 →
      TeamRoutines.from_routines_list routines
        = .error (.rosterSize routines.length))
    ∧ (routines.length = 5 →
      TeamRoutines.from_routines_list routines
        = .ok ⟨routines.getD 0 [], routines.getD 1 [], routines.getD 2 [],
               routines.getD 3 [], routines.getD 4 []⟩) := by
  constructor
  · intro h
    rcases routines with _ | ⟨a, _ | ⟨b, _ | ⟨c, _ | ⟨d, _ | ⟨e, _ | ⟨f, t⟩⟩⟩⟩⟩⟩ <;>
      first
        | rfl
        | exact absurd rfl h
  · intro h
    rcases routines with _ | ⟨a, _ | ⟨b, _ | ⟨c, _ | ⟨d, _ | ⟨e, _ | ⟨f, t⟩⟩⟩⟩⟩⟩ <;>
      simp_all [TeamRoutines.from_routines_list]

/-- C7 witness: a 3-entry input is rejected with count 3 and a 5-entry
input is accepted. -/
theorem C7_witness :
    TeamRoutines.from_routines_list [[], [], []] = .error (.rosterSize 3)
    ∧ TeamRoutines.from_routines_list [[], [], [], [], []]
        = .ok ⟨[], [], [], [], []⟩ :=
  ⟨(C7_from_routines_list_arity [[], [], []]).1 (by decide),
   by simpa using (C7_from_routines_list_arity [[], [], [], [], []]).2 rfl⟩

/-- C6: for every round whose frame sequence is present with frame count N,
`get_frame` returns the stored frame for every index 0 ≤ f < N and fails
with the out-of-range error at f = N; when the round's frame sequence is
absent it fails with the data-absence error for every index. -/
theorem C6_get_frame_range (g : Game) (ri : Int) :
    (∀ frames, get_frames g ri = .ok frames →
      (∀ f : Nat, f < frames.length →
          get_frame g ri (f : Int) = .ok (frames.getD f default))
      ∧ get_frame g ri (frames.length : Int) = .error .frameOutOfBounds)
    ∧ (∀ round, get_game_round g ri = .ok round → round.frames = none →
        ∀ fi : Int, get_frame g ri fi = .error .noFrames) := by
  constructor
  · intro frames hfr
    constructor
    · intro f hf
      rw [get_frame]
      simp only [hfr, exbind_ok]
      rw [if_neg (by omega), pyGet_nonneg (by omega) (by omega)]
      simp
    · rw [get_frame]
      simp only [hfr, exbind_ok]
      rw [if_pos (le_refl _)]
  · intro round hrd hnone fi
    rw [get_frame, get_frames]
    simp only [hrd, exbind_ok, hnone, exbind_error]

/-- C6 witness: on the fixture game, frame 1 of 3 is returned, frame 3 is
out of range, and the frameless round reports absent data. -/
theorem C6_witness :
    get_frame gW 0 1 = .ok (fW 1)
    ∧ get_frame gW 0 3 = .error .frameOutOfBounds
    ∧ get_frame gTwo 1 0 = .error .noFrames := by
  have h := C6_get_frame_range gW 0
  have h2 := C6_get_frame_range gTwo 1
  refine ⟨?_, ?_, ?_⟩
  · simpa using (h.1 framesW rfl).1 1 (by decide)
  · simpa using (h.1 framesW rfl).2
  · exact h2.2 roundB rfl rfl 0

/-- C3 counterexample: the claim says a negative round or frame index fails
rather than returning an element, but on a two-round fixture the index -1
returns the last round, and likewise the last frame. -/
theorem C3_counterexample :
    get_game_round gTwo (-1) = .ok roundB
    ∧ get_frame gTwo 0 (-1) = .ok (fW 1) := ⟨rfl, rfl⟩

/-- C3 amended: round and frame indices are validated only against the
upper bound: an index at least the sequence length fails with the
out-of-range error before the list is indexed; a negative index is not
rejected: with magnitude at most the length it reaches the underlying
storage and returns the element at length plus the index, and below minus
the length it fails with a raw IndexError. -/
theorem C3_amended_index_validation (g : Game) (ri fi : Int) :
    (∀ rounds, get_game_rounds g = .ok rounds →
      ((rounds.length : Int) ≤ ri →
        get_game_round g ri = .error .roundOutOfBounds)
      ∧ (ri < 0 → 0 ≤ (rounds.length : Int) + ri →
        get_game_round g ri
          = .ok (rounds.getD ((rounds.length : Int) + ri).toNat default))
      ∧ ((rounds.length : Int) + ri < 0 →
        get_game_round g ri = .error .indexError))
    ∧ (∀ frames, get_frames g ri = .ok frames →
      ((frames.length : Int) ≤ fi →
        get_frame g ri fi = .error .frameOutOfBounds)
      ∧ (fi < 0 → 0 ≤ (frames.length : Int) + fi →
        get_frame g ri fi
          = .ok (frames.getD ((frames.length : Int) + fi).toNat default))
      ∧ ((frames.length : Int) + fi < 0 →
        get_frame g ri fi = .error .indexError)) := by
  constructor
  · intro rounds hro
    refine ⟨?_, ?_, ?_⟩
    · intro hge
      rw [get_game_round]
      simp only [hro, exbind_ok]
      rw [if_pos (by omega)]
    · intro hneg hin
      rw [get_game_round]
      simp only [hro, exbind_ok]
      rw [if_neg (by omega), pyGet_neg hneg hin]
    · intro hlt
      rw [get_game_round]
      simp only [hro, exbind_ok]
      rw [if_neg (by omega), pyGet_neg_oob hlt]
  · intro frames hfr
    refine ⟨?_, ?_, ?_⟩
    · intro hge
      rw [get_frame]
      simp only [hfr, exbind_ok]
      rw [if_pos (by omega)]
    · intro hneg hin
      rw [get_frame]
      simp only [hfr, exbind_ok]
      rw [if_neg (by omega), pyGet_neg hneg hin]
    · intro hlt
      rw [get_frame]
      simp only [hfr, exbind_ok]
      rw [if_neg (by omega), pyGet_neg_oob hlt]

/-- C3 amended witness: on the two-round fixture, index 2 is rejected as
out of range, index -3 raises the raw IndexError, and frame index -2 of
round 0 returns the first of its two frames. -/
theorem C3_witness :
    get_game_round gTwo 2 = .error .roundOutOfBounds
    ∧ get_game_round gTwo (-3) = .error .indexError
    ∧ get_frame gTwo 0 (-2) = .ok (fW 0) := by
  have h := C3_amended_index_validation gTwo 2 0
  have h2 := C3_amended_index_validation gTwo (-3) (-2)
  have h3 := C3_amended_index_validation gTwo 0 (-2)
  refine ⟨?_, ?_, ?_⟩
  · exact (h.1 [roundA, roundB] rfl).1 (by decide)
  · exact ((h2.1 [roundA, roundB] rfl).2.2 (by decide))
  · simpa using ((h3.2 [fW 0, fW 1] rfl).2.1 (by decide) (by decide))

/-- C10: `get_player_at_frame` performs no bounds check of its own: with a
present side player list of length k, any index at least k fails with the
raw IndexError (not the repository's out-of-range error), and any negative
index of magnitude at most k returns the player at position k plus the
index; `is_player_alive` and `get_player_hp` inherit this behavior. -/
theorem C10_player_index_raw (g : Game) (ri fi : Int) (team : TeamType) :
    ∀ ps, get_player_info_list g ri fi team = .ok ps →
      (∀ i : Int, (ps.length : Int) ≤ i →
        get_player_at_frame g i team ri fi = .error .indexError
        ∧ is_player_alive g i team ri fi = .error .indexError
        ∧ get_player_hp g i team ri fi = .error .indexError)
      ∧ (∀ i : Int, i < 0 → 0 ≤ (ps.length : Int) + i →
        get_player_at_frame g i team ri fi
          = .ok (ps.getD ((ps.length : Int) + i).toNat default)
        ∧ is_player_alive g i team ri fi
          = .ok (ps.getD ((ps.length : Int) + i).toNat default).isAlive
        ∧ get_player_hp g i team ri fi
          = .ok (ps.getD ((ps.length : Int) + i).toNat default).hp) := by
  intro ps hps
  constructor
  · intro i hge
    have hbase : get_player_at_frame g i team ri fi = .error .indexError := by
      rw [get_player_at_frame]
      simp only [hps, exbind_ok]
      exact pyGet_ge_oob hge
    refine ⟨hbase, ?_, ?_⟩
    · rw [is_player_alive]
      simp only [hbase, exbind_error]
    · rw [get_player_hp]
      simp only [hbase, exbind_error]
  · intro i hneg hin
    have hbase : get_player_at_frame g i team ri fi
        = .ok (ps.getD ((ps.length : Int) + i).toNat default) := by
      rw [get_player_at_frame]
      simp only [hps, exbind_ok]
      exact pyGet_neg hneg hin
    refine ⟨hbase, ?_, ?_⟩
    · rw [is_player_alive]
      simp only [hbase, exbind_ok, expure_ok]
    · rw [get_player_hp]
      simp only [hbase, exbind_ok, expure_ok]

/-- C10 witness: on the fixture frame with 5 T-side players, index 5 raises
the raw IndexError through all three accessors, and index -1 resolves to
the player in slot 4. -/
theorem C10_witness :
    get_player_at_frame gW 5 .T 0 0 = .error .indexError
    ∧ is_player_alive gW 5 .T 0 0 = .error .indexError
    ∧ get_player_hp gW 5 .T 0 0 = .error .indexError
    ∧ get_player_at_frame gW (-1) .T 0 0 = .ok (mkP "e" 0 4)
    ∧ is_player_alive gW (-1) .T 0 0 = .ok true
    ∧ get_player_hp gW (-1) .T 0 0 = .ok 100 := by
  have h := C10_player_index_raw gW 0 0 .T (mkT 0) rfl
  obtain ⟨h1, h2, h3⟩ := h.1 5 (by decide)
  obtain ⟨h4, h5, h6⟩ := h.2 (-1) (by decide) (by decide)
  exact ⟨h1, h2, h3, by simpa using h4, by simpa using h5, by simpa using h6⟩

/-- C8: for every in-range round and frame whose T-side player list is
present and whose winning-side string parses, `get_round_stats` combines
the round's winning side and end reason, the CT-side frame-level alive
count as opponents-alive and CT team equipment value as
opponent-equipment-value, and one Player entry derived from each T-side
PlayerInfo of that frame. -/
theorem C8_round_stats (g : Game) (ri fi : Int) :
    ∀ round frame ws ps,
      get_game_round g ri = .ok round →
      get_frame g ri fi = .ok frame →
      TeamType.from_str round.winningSide = .ok ws →
      get_player_info_list g ri fi .T = .ok ps →
      get_round_stats g ri fi
        = .ok ⟨ps.map Player.from_player_info, ws, round.roundEndReason,
               frame.ct.alivePlayers, frame.ct.teamEqVal, frame.clockTime⟩ := by
  intro round frame ws ps h1 h2 h3 h4
  rw [get_round_stats]
  simp only [h1, h2, h3, h4, exbind_ok, expure_ok]

/-- C8 witness: the scenario round with winning side CT, end reason
BombDefused, and CT frame state alive count 3 and equipment value 4000
yields exactly those four values plus one entry per T-side player. -/
theorem C8_witness :
    get_round_stats gW 0 0
      = .ok ⟨(mkT 0).map Player.from_player_info, .CT, "BombDefused",
             3, 4000, "1:55"⟩ := by
  exact C8_round_stats gW 0 0 roundW (fW 0) .CT (mkT 0) rfl rfl rfl rfl

/-- The number of points one name contributes to one frame is its number of
occurrences in that side's list. -/
theorem framePts_length (f : GameFrame) (team : TeamType) (n : String) :
    (framePts f team n).length = occurrencesInFrame f team n := by
  unfold framePts occurrencesInFrame sidePoints
  cases (f.side team).players <;> simp

/-- The number of points one name contributes over one chunk is the sum of
its per-frame occurrence counts. -/
theorem chunkPts_length (c : List GameFrame) (team : TeamType) (n : String) :
    (chunkPts c team n).length
      = (c.map (fun f => occurrencesInFrame f team n)).sum := by
  induction c with
  | nil => rfl
  | cons f rest ih =>
    simp only [chunkPts, List.map_cons, List.flatten_cons, List.length_append,
      List.sum_cons, framePts_length] at ih ⊢
    omega

/-- Total points across the per-chunk Routines of one name equal the sum of
that name's occurrence counts over the flattened chunks. -/
theorem totalPoints_chunks (chunks : List (List GameFrame)) (team : TeamType)
    (n : String) :
    totalPoints (chunks.map (fun c => Routine.mk (chunkPts c team n)))
      = (chunks.flatten.map (fun f => occurrencesInFrame f team n)).sum := by
  induction chunks with
  | nil => rfl
  | cons c rest ih =>
    simp only [totalPoints, List.map_cons, List.flatten_cons, List.map_append,
      List.sum_cons, List.sum_append] at ih ⊢
    rw [chunkPts_length c team n, ih]

/-- C2: with a window length of at least 1 and a successful extraction, the
frame sequence is partitioned into consecutive chunks of the window size
with only the final chunk possibly shorter, the number of chunks is the
frame count divided by the window length rounded up, and each roster
name's store entry has exactly one Routine per chunk, in chunk order. -/
theorem C2_chunk_partition {g : Game} {ri L : Int} {sc : Store × Store}
    {frames : List GameFrame} {tro cro : List String}
    {chunks : List (List GameFrame)} {tc : Team × Team}
    (hL : 1 ≤ L)
    (hfr : get_frames g ri = .ok frames)
    (htr : roster g ri .T = .ok tro)
    (hcr : roster g ri .CT = .ok cro)
    (hch : batch_frames frames L = .ok chunks)
    (hb : buildStores g ri L = .ok sc)
    (hok : get_all_team_routines g ri L = .ok tc) :
    chunks.flatten = frames
    ∧ chunks.length = (frames.length + L.toNat - 1) / L.toNat
    ∧ (∀ c ∈ chunks.dropLast, c.length = L.toNat)
    ∧ (∀ c ∈ chunks, 1 ≤ c.length ∧ c.length ≤ L.toNat)
    ∧ (∀ n ∈ tro,
        sc.1.find n = some (chunks.map (fun c => Routine.mk (chunkPts c .T n)))
        ∧ ((sc.1.find n).map List.length) = some chunks.length)
    ∧ (∀ n ∈ cro,
        sc.2.find n = some (chunks.map (fun c => Routine.mk (chunkPts c .CT n)))
        ∧ ((sc.2.find n).map List.length) = some chunks.length) := by
  have hchunks : chunks = chunkList (L.toNat - 1) frames :=
    Except.ok.inj (hch.symm.trans (batch_frames_pos hL frames))
  obtain ⟨bT, bC⟩ := buildStores_find hb hfr htr hcr hch
  refine ⟨?_, ?_, ?_, ?_, ?_, ?_⟩
  · rw [hchunks]
    exact chunkList_flatten _ frames
  · rw [hchunks, chunkList_length]
    congr 1 <;> omega
  · intro c hc
    rw [hchunks] at hc
    have := chunkList_dropLast_length (L.toNat - 1) frames c hc
    omega
  · intro c hc
    rw [hchunks] at hc
    have := chunkList_mem_length (L.toNat - 1) frames c hc
    omega
  · intro n hn
    exact ⟨bT n hn, by rw [bT n hn]; simp⟩
  · intro n hn
    exact ⟨bC n hn, by rw [bC n hn]; simp⟩

/-- C2 witness: on the fixture game with 3 frames and window length 2, the
chunks flatten back to the frames, there are 2 chunks, and the roster
player a has a 2-entry routine list. -/
theorem C2_witness :
    chunksW.flatten = framesW
    ∧ chunksW.length = 2
    ∧ ((scW.1.find "a").map List.length) = some 2 := by
  have h := @C2_chunk_partition gW 0 2 scW framesW
    ["a", "b", "c", "d", "e"] ["p", "q", "r", "s", "u"] chunksW tcW
    (by decide) rfl rfl rfl rfl rfl rfl
  exact ⟨h.1, h.2.1, (h.2.2.2.2.1 "a" (by decide)).2⟩

/-- C1 amended: with a window length of at least 1 and a successful
extraction, each roster name's total point count across its Routines
equals the sum over the round's frames of the number of OCCURRENCES of
that name in that side's player list (which is the number of frames in
which the name appears whenever no frame lists the same name twice). -/
theorem C1_points_total {g : Game} {ri L : Int} {sc : Store × Store}
    {frames : List GameFrame} {tro cro : List String}
    {chunks : List (List GameFrame)} {tc : Team × Team}
    (hL : 1 ≤ L)
    (hfr : get_frames g ri = .ok frames)
    (htr : roster g ri .T = .ok tro)
    (hcr : roster g ri .CT = .ok cro)
    (hch : batch_frames frames L = .ok chunks)
    (hb : buildStores g ri L = .ok sc)
    (hok : get_all_team_routines g ri L = .ok tc) :
    (∀ n ∈ tro, ((sc.1.find n).map totalPoints)
        = some ((frames.map (fun f => occurrencesInFrame f .T n)).sum))
    ∧ (∀ n ∈ cro, ((sc.2.find n).map totalPoints)
        = some ((frames.map (fun f => occurrencesInFrame f .CT n)).sum)) := by
  have hchunks : chunks = chunkList (L.toNat - 1) frames :=
    Except.ok.inj (hch.symm.trans (batch_frames_pos hL frames))
  have hflat : chunks.flatten = frames := by
    rw [hchunks]
    exact chunkList_flatten _ frames
  obtain ⟨bT, bC⟩ := buildStores_find hb hfr htr hcr hch
  constructor
  · intro n hn
    rw [bT n hn, Option.map_some', totalPoints_chunks, hflat]
  · intro n hn
    rw [bC n hn, Option.map_some', totalPoints_chunks, hflat]

/-- C1 amended witness: on the fixture game with 3 frames and window length
2, player a's routines hold 3 points in total, one per frame. -/
theorem C1_witness :
    ((scW.1.find "a").map totalPoints) = some 3 := by
  have h := @C1_points_total gW 0 2 scW framesW
    ["a", "b", "c", "d", "e"] ["p", "q", "r", "s", "u"] chunksW tcW
    (by decide) rfl rfl rfl rfl rfl rfl
  exact h.1 "a" (by decide)

/-- C1 counterexample: a frame listing the name a twice satisfies every
hypothesis of the claim (frames present, frame-0 list present, all frame
names inside the frame-0 roster, window length 1, successful extraction)
yet gives a 2 points while a appears in only 1 frame. -/
theorem C1_counterexample :
    get_frames gDup 0 = .ok framesDup
    ∧ (framesDup.all (fun f =>
        (f.t.players.getD []).all
          (fun p => (["a", "b", "c", "d", "e"]).contains p.name))) = true
    ∧ get_all_team_routines gDup 0 1 = .ok tcDup
    ∧ ((scDup.1.find "a").map totalPoints) = some 2
    ∧ (framesDup.countP (fun f => appearsInFrame f .T "a")) = 1
    ∧ (2 : Nat) ≠ 1 :=
  ⟨rfl, rfl, rfl, rfl, rfl, by decide⟩

/-- C9: a frame after frame 0 containing an unknown name in a side's player
list makes `get_all_team_routines` fail with a KeyError, while a roster
player merely missing from a later frame is silently skipped: the run
succeeds, that player still has one Routine per chunk, and only the point
is missing. -/
theorem C9_unknown_name_keyerror :
    get_all_team_routines gUnk 0 1 = .error .keyError
    ∧ get_all_team_routines gSkip 0 1 = .ok tcSkip
    ∧ ((scSkip.1.find "e").map List.length) = some 2
    ∧ ((scSkip.1.find "e").map totalPoints) = some 1
    ∧ ((scSkip.1.find "a").map totalPoints) = some 2 :=
  ⟨rfl, rfl, rfl, rfl, rfl⟩

/-- C5 amended: for window length 0 the extraction fails with the ValueError
that a zero range step raises; for every negative window length it does NOT
fail: the batching yields no chunks and, when both frame-0 rosters have
exactly 5 names, the call returns teams whose every routine list is empty. -/
theorem C5_nonpositive_window {g : Game} {ri : Int}
    {frames : List GameFrame} {tro cro : List String}
    (hfr : get_frames g ri = .ok frames)
    (htr : roster g ri .T = .ok tro)
    (hcr : roster g ri .CT = .ok cro) :
    get_all_team_routines g ri 0 = .error .zeroStep
    ∧ (∀ L : Int, L < 0 → tro.length = 5 → cro.length = 5 →
        get_all_team_routines g ri L
          = .ok (⟨[], [], [], [], []⟩, ⟨[], [], [], [], []⟩)) := by
  constructor
  · rw [get_all_team_routines, buildStores]
    have hz : batch_frames frames 0 = .error .zeroStep := by
      rw [batch_frames, if_pos rfl]
    simp only [hfr, htr, hcr, hz, exbind_ok, exbind_error]
  · intro L hL h5t h5c
    have hbatch : batch_frames frames L = .ok [] := by
      rw [batch_frames, if_neg (by omega), if_pos hL]
    have hvalT : (initStore tro).map (fun e => e.2)
        = ([[], [], [], [], []] : List (List Routine)) := by
      rcases tro with _ | ⟨a, _ | ⟨b, _ | ⟨c, _ | ⟨d, _ | ⟨e, _ | ⟨f, t⟩⟩⟩⟩⟩⟩ <;>
        simp_all [initStore]
    have hvalC : (initStore cro).map (fun e => e.2)
        = ([[], [], [], [], []] : List (List Routine)) := by
      rcases cro with _ | ⟨a, _ | ⟨b, _ | ⟨c, _ | ⟨d, _ | ⟨e, _ | ⟨f, t⟩⟩⟩⟩⟩⟩ <;>
        simp_all [initStore]
    rw [get_all_team_routines, buildStores]
    simp only [hfr, htr, hcr, hbatch, exbind_ok, List.foldlM_nil, expure_ok,
      hvalT, hvalC]
    rfl

/-- C5 counterexample: the claim says every window length below 1 fails with
an InvalidArgument-style error, but window length -1 on a well-formed round
succeeds and returns the degenerate all-empty teams. -/
theorem C5_counterexample :
    (-1 : Int) < 1
    ∧ get_all_team_routines gW 0 (-1)
        = .ok (⟨[], [], [], [], []⟩, ⟨[], [], [], [], []⟩) :=
  ⟨by decide, rfl⟩

/-- C5 amended witness: on the fixture game, window length 0 fails with the
zero-step error and window length -2 returns the all-empty teams. -/
theorem C5_witness :
    get_all_team_routines gW 0 0 = .error .zeroStep
    ∧ get_all_team_routines gW 0 (-2)
        = .ok (⟨[], [], [], [], []⟩, ⟨[], [], [], [], []⟩) := by
  have h := @C5_nonpositive_window gW 0 framesW
    ["a", "b", "c", "d", "e"] ["p", "q", "r", "s", "u"] rfl rfl rfl
  exact ⟨h.1, h.2 (-2) (by decide) (by decide) (by decide)⟩

end CsgoDemo
